import Mathlib

/-!
# Verification of the finance-data-visualizer core (src/main.py)

Shallow embedding of the keyword-based transaction classifier, the
category store, the CSV loader/normalizer, the aggregator and the edit
reconciler of `src/main.py`, together with theorems settling the frozen
claims about the program.

Modelling conventions:
* The category store (`st.session_state.categories`, a Python dict from
  category name to keyword list) is an insertion-ordered association
  list `CatStore := List (String × List String)`; Python dicts preserve
  insertion order, new keys are appended at the end, and existing keys
  keep their position on value update.
* Python float amounts are modelled as exact rationals `ℚ`; the claims
  settled here concern which value is parsed and conservation of sums,
  not binary rounding.
* MongoDB persistence calls (`save_categories_to_mongo`, `$addToSet`
  updates) only mirror the in-memory dict; the claims are about the
  in-memory store, so the embedding carries the in-memory mapping and
  the persistence side effects are not modelled separately.
-/

set_option autoImplicit false

/-- A normalized transaction record: one row of the loaded dataframe.
`date` is the parsed `(year, month, day)` triple, `amount` the parsed
numeric amount, `debitCredit` the raw `Debit/Credit` column value and
`category` the (mutable) `Category` column. -/
structure Transaction where
  date : Nat × Nat × Nat
  details : String
  amount : ℚ
  debitCredit : String
  category : String
deriving DecidableEq

/-- The category store: ordered mapping from category name to keyword
list, as held in `st.session_state.categories`. -/
abbrev CatStore : Type := List (String × List String)

/-- ASCII lowering of one character, as Python `str.lower` acts on the
ASCII inputs of this program. -/
def lowerChar (c : Char) : Char :=
  if 65 ≤ c.toNat ∧ c.toNat ≤ 90 then Char.ofNat (c.toNat + 32) else c

/-- Drop whitespace from both ends of a character list. -/
def trimList (l : List Char) : List Char :=
  ((l.dropWhile Char.isWhitespace).reverse.dropWhile Char.isWhitespace).reverse

/-- Python `str.strip()`: remove leading and trailing whitespace. -/
def pyStrip (s : String) : String := String.mk (trimList s.data)

/-- Python `str.lower()`. -/
def pyLower (s : String) : String := String.mk (s.data.map lowerChar)

/-- Split a character list at every occurrence of a separator
character; `n` separators yield `n + 1` (possibly empty) fields. -/
def splitOnChar (sep : Char) : List Char → List (List Char)
  | [] => [[]]
  | c :: rest =>
    let r := splitOnChar sep rest
    if c = sep then [] :: r
    else
      match r with
      | [] => [[c]]
      | h :: t => (c :: h) :: t

/-- Python `s.replace(",", "")`. -/
def removeCommas (s : String) : String :=
  String.mk (s.data.filter fun c => c ≠ ',')

/-- Dict lookup `st.session_state.categories[category]` (first binding
of the key; a Python dict has each key once). -/
def lookupCat : CatStore → String → Option (List String)
  | [], _ => none
  | (c, ks) :: rest, c0 => if c = c0 then some ks else lookupCat rest c0

/-- Dict value update `st.session_state.categories[category] = ks`:
the existing key keeps its position. -/
def updateCat : CatStore → String → List String → CatStore
  | [], _, _ => []
  | (c, ks) :: rest, c0, ks0 =>
      if c = c0 then (c, ks0) :: rest else (c, ks) :: updateCat rest c0 ks0

/-- The default store installed by `load_categories_from_mongo` when no
document exists (and the store every session starts from). -/
def initCats : CatStore := [("Uncategorized", [])]

/-- Function `add_keyword_to_category(category, keyword)` from `src/main.py`
lines 104-126, acting on the in-memory store.  Strips the keyword;
rejects an empty result; creates the category with an empty list when
absent; appends the stripped keyword unless it is already an element of
the list (exact `in` comparison); returns whether a mutation happened. -/
def add_keyword_to_category (category keyword : String) (cats : CatStore) :
    CatStore × Bool :=
  let kw := pyStrip keyword
  if kw = "" then (cats, false)
  else
    let cats1 := match lookupCat cats category with
      | some _ => cats
      | none => cats ++ [(category, [])]
    let ks := (lookupCat cats1 category).getD []
    if kw ∈ ks then (cats1, false)
    else (updateCat cats1 category (ks ++ [kw]), true)

/-- The add-category button handler in `main` (lines 148-154): insert
the name with an empty keyword list when absent, otherwise warn and do
nothing. -/
def create_category (name : String) (cats : CatStore) : CatStore × Bool :=
  match lookupCat cats name with
  | some _ => (cats, false)
  | none => (cats ++ [(name, [])], true)

/-- A store mutation a session can perform. -/
inductive StoreOp where
  | addKw (category keyword : String)
  | createCat (name : String)
deriving DecidableEq

/-- Apply one mutation to the store. -/
def applyOp (cats : CatStore) : StoreOp → CatStore
  | .addKw c k => (add_keyword_to_category c k cats).1
  | .createCat c => (create_category c cats).1

/-- Run a sequence of store mutations. -/
def runOps (ops : List StoreOp) (cats : CatStore) : CatStore :=
  ops.foldl applyOp cats

/-- Whether an operation is an `add_keyword_to_category` call on the
reserved category. -/
def addsToUncategorized : StoreOp → Bool
  | .addKw c _ => c = "Uncategorized"
  | .createCat _ => false

/-- Normalization `.lower().strip()` applied to details and keywords in
`categorize_transaction`. -/
def normalizeStr (s : String) : String := pyStrip (pyLower s)

/-- One inner-loop pass of `categorize_transaction` for a single
category: rows whose normalized `Details` is among the category's
normalized keywords get the category name. -/
def matchStep (c : String) (keywords : List String) (r : Transaction) : Transaction :=
  if normalizeStr r.details ∈ keywords.map normalizeStr then
    { r with category := c }
  else r

/-- Function `categorize_transaction(df)` from `src/main.py` lines 72-86: set
every row's `Category` to `"Uncategorized"`, then for every category in
store order other than `"Uncategorized"` and with a non-empty keyword
list, overwrite the `Category` of every row whose lowered-and-stripped
`Details` equals one of the lowered-and-stripped keywords. -/
def categorize_transaction (cats : CatStore) (df : List Transaction) :
    List Transaction :=
  let df0 := df.map fun r => { r with category := "Uncategorized" }
  cats.foldl
    (fun acc p =>
      if p.1 = "Uncategorized" ∨ p.2 = [] then acc
      else acc.map (matchStep p.1 p.2))
    df0

/-- One category step of the per-`Details` classification fold. -/
def classifyStep (d : String) (a : String) (p : String × List String) :
    String :=
  if p.1 = "Uncategorized" ∨ p.2 = [] then a
  else if normalizeStr d ∈ p.2.map normalizeStr then p.1 else a

/-- The category assigned to a given `Details` value by
`categorize_transaction`: fold over the store in order, overwriting on
every match. -/
def classifyDetails (cats : CatStore) (details : String) : String :=
  cats.foldl (classifyStep details) "Uncategorized"

/-- One category step of `categorize_transaction` seen from a single
record. -/
def recordStep (r0 : Transaction) (p : String × List String) :
    Transaction :=
  if p.1 = "Uncategorized" ∨ p.2 = [] then r0 else matchStep p.1 p.2 r0

/-- The names of the store entries that match a `Details` value: not
`"Uncategorized"`, non-empty keyword list, and the normalized details
equal to one of the normalized keywords, in store iteration order. -/
def matchingCats (cats : CatStore) (details : String) : List String :=
  (cats.filter fun p =>
      p.1 ≠ "Uncategorized" ∧ p.2 ≠ [] ∧
        normalizeStr details ∈ p.2.map normalizeStr).map (·.1)

/-- An `Amount` cell of the uploaded CSV: pandas reads the column either
as strings (object dtype) or as numbers. -/
inductive AmountCell where
  | str (s : String)
  | num (q : ℚ)
deriving DecidableEq

/-- A raw CSV data row, after the header columns were stripped: the four
required columns `Date, Details, Amount, Debit/Credit`. -/
structure RawRow where
  date : String
  details : String
  amount : AmountCell
  debitCredit : String
deriving DecidableEq

/-- Numeric value of a non-empty all-digit character sequence. -/
def digitsVal (l : List Char) : Option Nat :=
  if l ≠ [] ∧ l.all Char.isDigit then
    some (l.foldl (fun n c => 10 * n + (c.toNat - 48)) 0)
  else none

/-- Month number of a three-letter month abbreviation, case-insensitive
as in `strptime` `%b`. -/
def parseMonth (s : List Char) : Option Nat :=
  match String.mk (s.map lowerChar) with
  | "jan" => some 1
  | "feb" => some 2
  | "mar" => some 3
  | "apr" => some 4
  | "may" => some 5
  | "jun" => some 6
  | "jul" => some 7
  | "aug" => some 8
  | "sep" => some 9
  | "oct" => some 10
  | "nov" => some 11
  | "dec" => some 12
  | _ => none

/-- Date conversion `pd.to_datetime(df["Date"], format="%d %b %Y")` on one cell, strict:
exactly three space-separated fields, a 1-2 digit day in 1..31, a month
abbreviation, a numeric year.  (Finer calendar validation such as month
lengths is not modelled; no claim depends on it.) -/
def parseDate (s : String) : Option (Nat × Nat × Nat) :=
  match splitOnChar ' ' s.data with
  | [d, m, y] =>
    match digitsVal d, parseMonth m, digitsVal y with
    | some dv, some mv, some yv =>
        if 1 ≤ dv ∧ dv ≤ 31 ∧ d.length ≤ 2 then some (yv, mv, dv) else none
    | _, _, _ => none
  | _ => none

/-- Conversion `float(s)` on an unsigned decimal literal: digits with an optional
single decimal point.  (Signs, exponents and surrounding whitespace are
not modelled; amounts are positive magnitudes per the input format.) -/
def parseDecimal (s : String) : Option ℚ :=
  match splitOnChar '.' s.data with
  | [ip] => (digitsVal ip).map fun n => (n : ℚ)
  | [ip, fp] =>
    match digitsVal ip, digitsVal fp with
    | some n, some f => some ((n : ℚ) + (f : ℚ) / (10 : ℚ) ^ fp.length)
    | _, _ => none
  | _ => none

/-- The `Amount` normalization of `load_transactions` (lines 93-96):
strings have `","` removed and are converted with `astype(float)`;
numeric cells pass through `astype(float)`. -/
def parseAmount : AmountCell → Option ℚ
  | .str s => parseDecimal (removeCommas s)
  | .num q => some q

/-- Parse one raw row into a normalized record (Amount conversion and
strict Date parsing), with `Category` initialized to
`"Uncategorized"`. -/
def parseRow (r : RawRow) : Option Transaction :=
  match parseAmount r.amount, parseDate r.date with
  | some a, some d =>
      some { date := d, details := r.details, amount := a,
             debitCredit := r.debitCredit, category := "Uncategorized" }
  | _, _ => none

/-- Parse all rows; any failing row fails the whole parse (the column
conversions in lines 93-97 raise on the first bad cell). -/
def parseRows : List RawRow → Option (List Transaction)
  | [] => some []
  | r :: rest =>
      match parseRow r, parseRows rest with
      | some t, some ts => some (t :: ts)
      | _, _ => none

/-- Function `load_transactions(file)` from `src/main.py` lines 88-102: the whole
parse pipeline runs under one `try`; any failure yields `None` (no
partial record set).  On success the records are classified against the
store.  The store is threaded through unchanged: the function never
writes `st.session_state.categories`. -/
def load_transactions (rows : List RawRow) (cats : CatStore) :
    Option (List Transaction) × CatStore :=
  match parseRows rows with
  | some recs => (some (categorize_transaction cats recs), cats)
  | none => (none, cats)

/-- Filter `df[df["Debit/Credit"] == "Debit"]` (line 137). -/
def debitsOf (records : List Transaction) : List Transaction :=
  records.filter fun r => r.debitCredit = "Debit"

/-- The per-category debit totals of `main` (lines 137 and 185-186):
filter to `Debit/Credit == "Debit"`, group by `Category`, sum `Amount`
per group.  Group keys appear in first-occurrence order. -/
def category_totals (records : List Transaction) : List (String × ℚ) :=
  (((debitsOf records).map (·.category)).dedup).map fun c =>
    (c, (((debitsOf records).filter fun r => r.category = c).map
          (·.amount)).sum)

/-- Insert into a list sorted by descending amount. -/
def insertByAmountDesc (p : String × ℚ) :
    List (String × ℚ) → List (String × ℚ)
  | [] => [p]
  | q :: rest =>
      if q.2 ≤ p.2 then p :: q :: rest else q :: insertByAmountDesc p rest

/-- Sorting `sort_values(by="Amount", ascending=False)` on the grouped totals
(line 186), as a stable insertion sort. -/
def sortByAmountDesc : List (String × ℚ) → List (String × ℚ)
  | [] => []
  | p :: rest => insertByAmountDesc p (sortByAmountDesc rest)

/-- The aggregator: grouped debit totals sorted descending by amount. -/
def aggregate (records : List Transaction) : List (String × ℚ) :=
  sortByAmountDesc (category_totals records)

/-- The save-button loop of `main` (lines 173-182): walk the stored and
edited rows in parallel; rows whose edited `Category` equals the stored
one are skipped; otherwise the stored record's `Category` is set to the
edited value and `add_keyword_to_category(new_category, details)` is
called with the edited row's `Details`. -/
def reconcile (stored edited : List Transaction) (cats : CatStore) :
    List Transaction × CatStore :=
  match stored, edited with
  | s :: ss, e :: es =>
    if e.category = s.category then
      let r := reconcile ss es cats
      (s :: r.1, r.2)
    else
      let cats1 := (add_keyword_to_category e.category e.details cats).1
      let r := reconcile ss es cats1
      ({ s with category := e.category } :: r.1, r.2)
  | s, _ => (s, cats)

/-- A placeholder record used as the `getD` default in statements about
row positions. -/
def defaultTxn : Transaction :=
  { date := (0, 0, 0), details := "", amount := 0,
    debitCredit := "", category := "" }

/-! ## Lemmas about the category store -/

lemma lookupCat_append_of_some {cats : CatStore} {c : String}
    {v : List String} (l : CatStore) (h : lookupCat cats c = some v) :
    lookupCat (cats ++ l) c = some v := by
  induction cats with
  | nil => simp [lookupCat] at h
  | cons p rest ih =>
    obtain ⟨c0, ks0⟩ := p
    by_cases hc : c0 = c
    · simpa [lookupCat, hc] using h
    · simp only [lookupCat, hc, if_false, List.cons_append] at h ⊢
      exact ih h

lemma lookupCat_append_singleton_of_none {cats : CatStore} {c : String}
    (ks : List String) (h : lookupCat cats c = none) :
    lookupCat (cats ++ [(c, ks)]) c = some ks := by
  induction cats with
  | nil => simp [lookupCat]
  | cons p rest ih =>
    obtain ⟨c0, ks0⟩ := p
    by_cases hc : c0 = c
    · simp [lookupCat, hc] at h
    · simp only [lookupCat, hc, if_false, List.cons_append] at h ⊢
      exact ih h

lemma lookupCat_updateCat_self {cats : CatStore} {c : String}
    {v : List String} (ks : List String) (h : lookupCat cats c = some v) :
    lookupCat (updateCat cats c ks) c = some ks := by
  induction cats with
  | nil => simp [lookupCat] at h
  | cons p rest ih =>
    obtain ⟨c0, ks0⟩ := p
    by_cases hc : c0 = c
    · simp [lookupCat, updateCat, hc]
    · simp only [lookupCat, updateCat, hc, if_false] at h ⊢
      exact ih h

lemma lookupCat_updateCat_ne {cats : CatStore} {c c0 : String}
    (ks : List String) (h : c ≠ c0) :
    lookupCat (updateCat cats c ks) c0 = lookupCat cats c0 := by
  induction cats with
  | nil => simp [updateCat]
  | cons p rest ih =>
    obtain ⟨c1, ks1⟩ := p
    by_cases hc : c1 = c
    · subst hc
      simp [lookupCat, updateCat, h]
    · simp only [lookupCat, updateCat, hc, if_false]
      by_cases hc0 : c1 = c0
      · simp [lookupCat, hc0]
      · simp [lookupCat, hc0, ih]

/-- If the stripped keyword is already an element of the category's
stored list (exact comparison), `add_keyword_to_category` is a no-op
returning `false`. -/
lemma addKw_mem_noop {cats : CatStore} {c k : String} {ks : List String}
    (hlook : lookupCat cats c = some ks) (hmem : pyStrip k ∈ ks) :
    add_keyword_to_category c k cats = (cats, false) := by
  unfold add_keyword_to_category
  by_cases he : pyStrip k = ""
  · simp [he]
  · simp [he, hlook, hmem]

/-- If the stripped keyword is non-empty and not yet stored,
`add_keyword_to_category` appends it: afterwards the category's list is
the old list (empty when the category was absent) with the stripped
keyword appended, and the call returns `true`. -/
lemma addKw_not_mem {cats : CatStore} {c k : String}
    (he : pyStrip k ≠ "") (hmem : pyStrip k ∉ (lookupCat cats c).getD []) :
    lookupCat (add_keyword_to_category c k cats).1 c
        = some ((lookupCat cats c).getD [] ++ [pyStrip k]) ∧
      (add_keyword_to_category c k cats).2 = true := by
  unfold add_keyword_to_category
  cases hlook : lookupCat cats c with
  | some ks =>
    simp only [hlook, Option.getD_some] at hmem
    simp only [he, if_false, hlook, Option.getD_some, hmem, if_neg,
      not_false_iff]
    exact ⟨lookupCat_updateCat_self _ hlook, trivial⟩
  | none =>
    have h0 : lookupCat (cats ++ [(c, [])]) c = some [] :=
      lookupCat_append_singleton_of_none _ hlook
    simp only [hlook, Option.getD_none] at hmem ⊢
    simp only [he, if_false, h0, Option.getD_some, List.not_mem_nil,
      if_neg, not_false_iff, List.nil_append]
    exact ⟨lookupCat_updateCat_self _ h0, trivial⟩

/-- Calling `add_keyword_to_category` on one category never changes the stored
keyword list of a different category. -/
lemma addKw_preserves_other {cats : CatStore} {c c0 : String}
    {v : List String} (k : String) (hne : c ≠ c0)
    (h : lookupCat cats c0 = some v) :
    lookupCat (add_keyword_to_category c k cats).1 c0 = some v := by
  unfold add_keyword_to_category
  by_cases he : pyStrip k = ""
  · simpa [he]
  · cases hlook : lookupCat cats c with
    | some ks =>
      by_cases hmem : pyStrip k ∈ ks
      · simpa [he, hlook, hmem]
      · simpa [he, hlook, hmem, lookupCat_updateCat_ne _ hne]
    | none =>
      have h0 : lookupCat (cats ++ [(c, [])]) c = some [] :=
        lookupCat_append_singleton_of_none _ hlook
      have h1 : lookupCat (cats ++ [(c, [])]) c0 = some v :=
        lookupCat_append_of_some _ h
      simpa [he, hlook, h0, lookupCat_updateCat_ne _ hne] using h1

/-- Calling `create_category` never changes the stored keyword list of a
category that already exists. -/
lemma create_preserves {cats : CatStore} {c0 : String}
    {v : List String} (c : String) (h : lookupCat cats c0 = some v) :
    lookupCat (create_category c cats).1 c0 = some v := by
  unfold create_category
  cases hlook : lookupCat cats c with
  | some ks => simpa
  | none => simpa using lookupCat_append_of_some _ h

/-- An operation sequence avoiding `add_keyword_to_category` on
`"Uncategorized"` keeps that category present with an empty keyword
list. -/
lemma runOps_uncategorized_empty (ops : List StoreOp) (cats : CatStore)
    (hstart : lookupCat cats "Uncategorized" = some [])
    (hops : ∀ op ∈ ops, addsToUncategorized op = false) :
    lookupCat (runOps ops cats) "Uncategorized" = some [] := by
  induction ops generalizing cats with
  | nil => simpa [runOps]
  | cons op rest ih =>
    have hop : addsToUncategorized op = false := hops op (by simp)
    have hrest : ∀ o ∈ rest, addsToUncategorized o = false :=
      fun o ho => hops o (by simp [ho])
    have hstep : lookupCat (applyOp cats op) "Uncategorized" = some [] := by
      cases op with
      | addKw c k =>
        have hne : c ≠ "Uncategorized" := by
          simpa [addsToUncategorized] using hop
        exact addKw_preserves_other k hne hstart
      | createCat c => exact create_preserves c hstart
    simpa [runOps] using ih (applyOp cats op) hstep hrest

/-! ## Lemmas about the classifier -/

/-- The outer category loop of `categorize_transaction` commutes with
the per-record view: folding row updates over the whole dataframe is a
per-record fold. -/
lemma categorize_foldl_map (cats : CatStore) (l : List Transaction) :
    cats.foldl
        (fun acc p =>
          if p.1 = "Uncategorized" ∨ p.2 = [] then acc
          else acc.map (matchStep p.1 p.2))
        l
      = l.map fun r => cats.foldl recordStep r := by
  induction cats generalizing l with
  | nil => simp
  | cons p rest ih =>
    by_cases hp : p.1 = "Uncategorized" ∨ p.2 = []
    · simp only [List.foldl_cons, if_pos hp]
      rw [ih l]
      apply List.map_congr_left
      intro r _
      rw [show recordStep r p = r by simp [recordStep, hp]]
    · simp only [List.foldl_cons, if_neg hp]
      rw [ih (l.map (matchStep p.1 p.2)), List.map_map]
      apply List.map_congr_left
      intro r _
      simp only [Function.comp_apply, List.foldl_cons]
      rw [show recordStep r p = matchStep p.1 p.2 r by
        simp [recordStep, hp]]

/-- The per-record fold of `categorize_transaction` only rewrites the
`category` field, to the value computed by `classifyDetails`. -/
lemma foldl_matchStep_eq_classify (cats : CatStore) (r : Transaction)
    (c : String) :
    cats.foldl recordStep { r with category := c }
      = { r with category := cats.foldl (classifyStep r.details) c } := by
  induction cats generalizing c with
  | nil => simp
  | cons p rest ih =>
    by_cases hp : p.1 = "Uncategorized" ∨ p.2 = []
    · simp only [List.foldl_cons]
      rw [show recordStep { r with category := c } p
            = { r with category := c } by simp [recordStep, hp],
        show classifyStep r.details c p = c by simp [classifyStep, hp]]
      exact ih c
    · by_cases hm : normalizeStr r.details ∈ p.2.map normalizeStr
      · simp only [List.foldl_cons]
        rw [show recordStep { r with category := c } p
              = { r with category := p.1 } by
            simp [recordStep, matchStep, hp, hm],
          show classifyStep r.details c p = p.1 by
            simp [classifyStep, hp, hm]]
        exact ih p.1
      · simp only [List.foldl_cons]
        rw [show recordStep { r with category := c } p
              = { r with category := c } by
            simp [recordStep, matchStep, hp, hm],
          show classifyStep r.details c p = c by
            simp [classifyStep, hp, hm]]
        exact ih c

/-- Function `categorize_transaction` is the per-record map assigning each row
the category `classifyDetails` computes from its `Details` value. -/
lemma categorize_eq_map (cats : CatStore) (df : List Transaction) :
    categorize_transaction cats df
      = df.map fun r =>
          { r with category := classifyDetails cats r.details } := by
  unfold categorize_transaction classifyDetails
  rw [categorize_foldl_map, List.map_map]
  apply List.map_congr_left
  intro r _
  exact foldl_matchStep_eq_classify cats r "Uncategorized"

/-- Function `classifyDetails` returns the last matching category in store
iteration order, or `"Uncategorized"` when none match. -/
lemma classifyDetails_eq_getLastD (cats : CatStore) (d : String) :
    classifyDetails cats d = (matchingCats cats d).getLastD "Uncategorized" := by
  suffices h : ∀ a : String,
      cats.foldl (classifyStep d) a = (matchingCats cats d).getLastD a from
    h "Uncategorized"
  induction cats with
  | nil => intro a; simp [matchingCats]
  | cons p rest ih =>
    intro a
    by_cases hp : p.1 = "Uncategorized" ∨ p.2 = []
    · have hfilt : ¬(p.1 ≠ "Uncategorized" ∧ p.2 ≠ [] ∧
          normalizeStr d ∈ p.2.map normalizeStr) := by
        rcases hp with hp | hp <;> simp [hp]
      simp only [matchingCats, List.foldl_cons, List.filter_cons]
      rw [show classifyStep d a p = a by simp [classifyStep, hp],
        if_neg (by simpa using hfilt)]
      exact ih a
    · push_neg at hp
      by_cases hm : normalizeStr d ∈ p.2.map normalizeStr
      · have hfilt : p.1 ≠ "Uncategorized" ∧ p.2 ≠ [] ∧
            normalizeStr d ∈ p.2.map normalizeStr := ⟨hp.1, hp.2, hm⟩
        simp only [matchingCats, List.foldl_cons, List.filter_cons]
        rw [show classifyStep d a p = p.1 by simp [classifyStep, hp, hm],
          if_pos (by simpa using hfilt), List.map_cons,
          List.getLastD_cons]
        exact ih p.1
      · simp only [matchingCats, List.foldl_cons, List.filter_cons]
        rw [show classifyStep d a p = a by simp [classifyStep, hp, hm],
          if_neg (by simp [hm])]
        exact ih a

/-- Reading `getD` after `map`, inside the length. -/
lemma getD_map_of_lt {α β : Type} (f : α → β) (l : List α) (i : Nat)
    (d : α) (d0 : β) (hi : i < l.length) :
    (l.map f).getD i d0 = f (l.getD i d) := by
  induction l generalizing i with
  | nil => simp at hi
  | cons x rest ih =>
    cases i with
    | zero => simp
    | succ n =>
      simp only [List.map_cons, List.getD_cons_succ]
      exact ih n (by simpa using hi)

/-! ## Lemmas about the loader and aggregator -/

/-- A row that fails to parse makes the whole parse pipeline fail. -/
lemma parseRows_none {rows : List RawRow}
    (h : ∃ r ∈ rows, parseRow r = none) :
    parseRows rows = none := by
  induction rows with
  | nil => simp at h
  | cons r rest ih =>
    obtain ⟨r0, hr0, hnone⟩ := h
    rcases List.mem_cons.mp hr0 with he | he
    · subst he
      simp [parseRows, hnone]
    · rw [show parseRows (r :: rest)
          = match parseRow r, parseRows rest with
            | some t, some ts => some (t :: ts)
            | _, _ => none from rfl,
        ih ⟨r0, he, hnone⟩]
      cases parseRow r <;> rfl

/-- Inserting into the descending-sorted totals preserves the sum of
the amounts. -/
lemma sum_insertByAmountDesc (p : String × ℚ) (l : List (String × ℚ)) :
    ((insertByAmountDesc p l).map Prod.snd).sum
      = p.2 + (l.map Prod.snd).sum := by
  induction l with
  | nil => simp [insertByAmountDesc]
  | cons q rest ih =>
    by_cases h : q.2 ≤ p.2
    · simp [insertByAmountDesc, h]
    · simp only [insertByAmountDesc, if_neg h, List.map_cons,
        List.sum_cons, ih]
      ring

/-- Sorting the totals preserves the sum of the amounts. -/
lemma sum_sortByAmountDesc (l : List (String × ℚ)) :
    ((sortByAmountDesc l).map Prod.snd).sum = (l.map Prod.snd).sum := by
  induction l with
  | nil => rfl
  | cons p rest ih => simp [sortByAmountDesc, sum_insertByAmountDesc, ih]

/-- Sum over a duplicate-free key list of a one-hot indicator. -/
lemma sum_if_single (cs : List String) (c0 : String) (a : ℚ)
    (hnd : cs.Nodup) (hc : c0 ∈ cs) :
    (cs.map fun c => if c0 = c then a else 0).sum = a := by
  induction cs with
  | nil => simp at hc
  | cons c rest ih =>
    rcases List.mem_cons.mp hc with he | he
    · subst he
      have hnotin : c0 ∉ rest := (List.nodup_cons.mp hnd).1
      have hz : (rest.map fun c => if c0 = c then a else 0).sum = 0 := by
        apply List.sum_eq_zero
        intro x hx
        obtain ⟨c1, hc1, he1⟩ := List.mem_map.mp hx
        rw [← he1, if_neg]
        intro hh
        exact hnotin (hh ▸ hc1)
      simp [hz]
    · have hne : c0 ≠ c := by
        rintro rfl
        exact (List.nodup_cons.mp hnd).1 he
      simp only [List.map_cons, List.sum_cons, if_neg hne,
        ih (List.nodup_cons.mp hnd).2 he]
      ring

/-- Pointwise sums split. -/
lemma sum_map_add_pair (cs : List String) (f g : String → ℚ) :
    (cs.map fun c => f c + g c).sum = (cs.map f).sum + (cs.map g).sum := by
  induction cs with
  | nil => simp
  | cons c rest ih =>
    simp only [List.map_cons, List.sum_cons, ih]
    ring

/-- Grouping a list by keys drawn from a duplicate-free key list that
covers every element, and summing per group, conserves the total sum. -/
lemma grouped_sum (cs : List String) (l : List Transaction)
    (hnd : cs.Nodup) (hall : ∀ x ∈ l, x.category ∈ cs) :
    (cs.map fun c =>
        ((l.filter fun r => r.category = c).map (·.amount)).sum).sum
      = (l.map (·.amount)).sum := by
  induction l with
  | nil => simp
  | cons x rest ih =>
    have hx : x.category ∈ cs := hall x (by simp)
    have hrest : ∀ y ∈ rest, y.category ∈ cs := fun y hy =>
      hall y (by simp [hy])
    have hsplit : ∀ c ∈ cs,
        (((x :: rest).filter fun r => r.category = c).map (·.amount)).sum
          = (if x.category = c then x.amount else 0)
            + ((rest.filter fun r => r.category = c).map (·.amount)).sum := by
      intro c _
      by_cases hc : x.category = c
      · simp [List.filter_cons, hc]
      · simp [List.filter_cons, hc]
    rw [List.map_congr_left hsplit, sum_map_add_pair,
      sum_if_single cs x.category x.amount hnd hx, ih hrest]
    simp

/-! ## Lemmas about the edit reconciler -/

/-- Reading `getD` after `zipWith`, inside both lengths. -/
lemma getD_zipWith_of_lt {α : Type} (f : α → α → α) (l l2 : List α)
    (i : Nat) (d : α) (h1 : i < l.length) (h2 : i < l2.length) :
    (List.zipWith f l l2).getD i d = f (l.getD i d) (l2.getD i d) := by
  induction l generalizing l2 i with
  | nil => simp at h1
  | cons x rest ih =>
    cases l2 with
    | nil => simp at h2
    | cons y rest2 =>
      cases i with
      | zero => simp
      | succ n =>
        simp only [List.zipWith_cons_cons, List.getD_cons_succ]
        exact ih rest2 n (by simpa using h1) (by simpa using h2)

/-- The records produced by `reconcile`: each stored row is paired with
its edited row; rows with unchanged `Category` are kept, rows with a
changed `Category` get the edited value; stored rows beyond the edited
rows are untouched. -/
lemma reconcile_fst (stored edited : List Transaction) (cats : CatStore) :
    (reconcile stored edited cats).1
      = stored.zipWith
          (fun s e =>
            if e.category = s.category then s
            else { s with category := e.category })
          edited
        ++ stored.drop edited.length := by
  induction stored generalizing edited cats with
  | nil => cases edited <;> simp [reconcile]
  | cons s ss ih =>
    cases edited with
    | nil => simp [reconcile]
    | cons e es =>
      by_cases h : e.category = s.category
      · simp only [reconcile, if_pos h, List.zipWith_cons_cons,
          List.length_cons, List.drop_succ_cons, List.cons_append]
        rw [ih]
      · simp only [reconcile, if_neg h, List.zipWith_cons_cons,
          List.length_cons, List.drop_succ_cons, List.cons_append]
        rw [ih]

/-- The store produced by `reconcile`: exactly the rows whose edited
`Category` differs feed an `add_keyword_to_category` call, in row
order, with the edited row's category and details. -/
lemma reconcile_snd (stored edited : List Transaction) (cats : CatStore) :
    (reconcile stored edited cats).2
      = ((stored.zip edited).filter fun p =>
            p.2.category ≠ p.1.category).foldl
          (fun cs p => (add_keyword_to_category p.2.category p.2.details cs).1)
          cats := by
  induction stored generalizing edited cats with
  | nil => cases edited <;> simp [reconcile]
  | cons s ss ih =>
    cases edited with
    | nil => simp [reconcile]
    | cons e es =>
      by_cases h : e.category = s.category
      · simp only [reconcile, if_pos h, List.zip_cons_cons,
          List.filter_cons]
        rw [if_neg (by simp [h]), ih]
      · simp only [reconcile, if_neg h, List.zip_cons_cons,
          List.filter_cons]
        rw [if_pos (by simpa using h), List.foldl_cons, ih]

/-! ## Claim C1 -/

/-- C1: if a record's normalized `Details` value equals a keyword in
more than one category, `categorize_transaction` assigns it the
matching category whose entry occurs last in store iteration order
(last-match-wins). -/
theorem classify_last_match_wins (cats : CatStore) (df : List Transaction)
    (i : Nat) (hi : i < df.length)
    (_hmulti : 2 ≤ (matchingCats cats ((df.getD i defaultTxn).details)).length) :
    ((categorize_transaction cats df).getD i defaultTxn).category
      = (matchingCats cats
          ((df.getD i defaultTxn).details)).getLastD "Uncategorized" := by
  rw [categorize_eq_map, getD_map_of_lt _ df i defaultTxn defaultTxn hi]
  exact classifyDetails_eq_getLastD cats _

/-- C1, witness: with categories in order `[A: {"coffee"}, B:
{"coffee"}]`, a record with `Details` `"Coffee "` classifies to `B`,
not `A`. -/
theorem classify_last_match_wins_witness :
    ((categorize_transaction [("A", ["coffee"]), ("B", ["coffee"])]
          [{ date := (2024, 1, 4), details := "Coffee ", amount := 0,
             debitCredit := "Debit", category := "Uncategorized" }]).getD 0
        defaultTxn).category = "B" :=
  (classify_last_match_wins [("A", ["coffee"]), ("B", ["coffee"])]
      [{ date := (2024, 1, 4), details := "Coffee ", amount := 0,
         debitCredit := "Debit", category := "Uncategorized" }] 0
      (by decide) (by decide)).trans (by decide)

/-! ## Claim C6 -/

/-- C6: classification ignores the incoming `Category` values (every
record is re-initialized to `"Uncategorized"` first), and a record
whose normalized `Details` matches no keyword in any category ends with
`Category = "Uncategorized"`. -/
theorem unmatched_stays_uncategorized (cats : CatStore)
    (df : List Transaction) (i : Nat) (c : String) (hi : i < df.length)
    (hnone : matchingCats cats ((df.getD i defaultTxn).details) = []) :
    ((categorize_transaction cats df).getD i defaultTxn).category
        = "Uncategorized" ∧
      categorize_transaction cats (df.map fun r => { r with category := c })
        = categorize_transaction cats df := by
  constructor
  · rw [categorize_eq_map, getD_map_of_lt _ df i defaultTxn defaultTxn hi]
    show classifyDetails cats _ = _
    rw [classifyDetails_eq_getLastD, hnone]
    rfl
  · rw [categorize_eq_map, categorize_eq_map, List.map_map]
    rfl

/-- C6, witness: a record with `Details` `"Trader Joes"` and an
arbitrary incoming `Category` ends `"Uncategorized"` when the only
stored keyword is `"spotify"`. -/
theorem unmatched_stays_uncategorized_witness :
    ((categorize_transaction [("Subscriptions", ["spotify"])]
          [{ date := (2024, 1, 4), details := "Trader Joes", amount := 0,
             debitCredit := "Debit", category := "X" }]).getD 0
        defaultTxn).category = "Uncategorized" :=
  (unmatched_stays_uncategorized [("Subscriptions", ["spotify"])]
      [{ date := (2024, 1, 4), details := "Trader Joes", amount := 0,
         debitCredit := "Debit", category := "X" }] 0 "Y"
      (by decide) (by decide)).1

/-! ## Claim C8 -/

/-- C8: in the save-button loop, a row whose edited `Category` equals
the stored one leaves its record untouched, a row whose edited
`Category` differs gets exactly the edited value, and the store is the
result of `add_keyword_to_category(newCategory, detailsOfThatRow)`
calls for precisely the rows that differ, in row order — so when no row
differs the store receives no write at all. -/
theorem reconcile_edit_semantics (stored edited : List Transaction)
    (cats : CatStore) (i : Nat) (hlen : stored.length = edited.length)
    (hi : i < stored.length) :
    (((edited.getD i defaultTxn).category
          = (stored.getD i defaultTxn).category →
        (reconcile stored edited cats).1.getD i defaultTxn
          = stored.getD i defaultTxn) ∧
      ((edited.getD i defaultTxn).category
          ≠ (stored.getD i defaultTxn).category →
        (reconcile stored edited cats).1.getD i defaultTxn
          = { stored.getD i defaultTxn with
                category := (edited.getD i defaultTxn).category })) ∧
      (reconcile stored edited cats).2
        = ((stored.zip edited).filter fun p =>
              p.2.category ≠ p.1.category).foldl
            (fun cs p =>
              (add_keyword_to_category p.2.category p.2.details cs).1)
            cats := by
  have hfst := reconcile_fst stored edited cats
  have hdrop : stored.drop edited.length = [] := by
    rw [← hlen]
    simp
  rw [hdrop, List.append_nil] at hfst
  rw [hfst, getD_zipWith_of_lt _ stored edited i defaultTxn hi (hlen ▸ hi)]
  refine ⟨⟨fun h => if_pos h, fun h => if_neg h⟩,
    reconcile_snd stored edited cats⟩

/-- C8, witness: with two debit rows where only the first row's
`Category` was edited (to `"Groceries"`), the first record takes the
new category, the untouched second row keeps its record, and the store
receives exactly one `add_keyword_to_category` call, for
`("Groceries", "Trader Joes")`. -/
theorem reconcile_edit_semantics_witness :
    (reconcile
        [{ date := (2024, 1, 4), details := "Trader Joes", amount := 5,
           debitCredit := "Debit", category := "Uncategorized" },
         { date := (2024, 1, 5), details := "Coffee", amount := 3,
           debitCredit := "Debit", category := "Food" }]
        [{ date := (2024, 1, 4), details := "Trader Joes", amount := 5,
           debitCredit := "Debit", category := "Groceries" },
         { date := (2024, 1, 5), details := "Coffee", amount := 3,
           debitCredit := "Debit", category := "Food" }]
        initCats).1.getD 0 defaultTxn
      = { date := (2024, 1, 4), details := "Trader Joes", amount := 5,
          debitCredit := "Debit", category := "Groceries" } ∧
      (reconcile
        [{ date := (2024, 1, 4), details := "Trader Joes", amount := 5,
           debitCredit := "Debit", category := "Uncategorized" },
         { date := (2024, 1, 5), details := "Coffee", amount := 3,
           debitCredit := "Debit", category := "Food" }]
        [{ date := (2024, 1, 4), details := "Trader Joes", amount := 5,
           debitCredit := "Debit", category := "Groceries" },
         { date := (2024, 1, 5), details := "Coffee", amount := 3,
           debitCredit := "Debit", category := "Food" }]
        initCats).2
      = [("Uncategorized", []), ("Groceries", ["Trader Joes"])] :=
  ⟨((reconcile_edit_semantics
        [{ date := (2024, 1, 4), details := "Trader Joes", amount := 5,
           debitCredit := "Debit", category := "Uncategorized" },
         { date := (2024, 1, 5), details := "Coffee", amount := 3,
           debitCredit := "Debit", category := "Food" }]
        [{ date := (2024, 1, 4), details := "Trader Joes", amount := 5,
           debitCredit := "Debit", category := "Groceries" },
         { date := (2024, 1, 5), details := "Coffee", amount := 3,
           debitCredit := "Debit", category := "Food" }]
        initCats 0 (by decide) (by decide)).1.2 (by decide)).trans
      (by decide),
    ((reconcile_edit_semantics
        [{ date := (2024, 1, 4), details := "Trader Joes", amount := 5,
           debitCredit := "Debit", category := "Uncategorized" },
         { date := (2024, 1, 5), details := "Coffee", amount := 3,
           debitCredit := "Debit", category := "Food" }]
        [{ date := (2024, 1, 4), details := "Trader Joes", amount := 5,
           debitCredit := "Debit", category := "Groceries" },
         { date := (2024, 1, 5), details := "Coffee", amount := 3,
           debitCredit := "Debit", category := "Food" }]
        initCats 0 (by decide) (by decide)).2).trans (by decide)⟩

/-! ## Claim C10 -/

/-- C10: `categorize_transaction` modifies only the `Category` field:
the number of records and the `Date`, `Details`, `Amount` and
`Debit/Credit` fields of every record are unchanged. -/
theorem classify_only_touches_category (cats : CatStore)
    (df : List Transaction) :
    (categorize_transaction cats df).length = df.length ∧
      (categorize_transaction cats df).map
          (fun r => (r.date, r.details, r.amount, r.debitCredit))
        = df.map fun r => (r.date, r.details, r.amount, r.debitCredit) := by
  refine ⟨?_, ?_⟩ <;> rw [categorize_eq_map]
  · simp
  · rw [List.map_map]
    rfl

/-! ## Claim C5 -/

/-- C5: if any row of the parse pipeline fails (for example a `Date`
not in strict `"%d %b %Y"` format), the loader returns an absent result
and leaves the category store untouched. -/
theorem load_failure_yields_nothing (rows : List RawRow) (cats : CatStore)
    (h : ∃ r ∈ rows, parseRow r = none) :
    load_transactions rows cats = (none, cats) := by
  unfold load_transactions
  rw [parseRows_none h]

/-- C5, witness: the malformed date `"2024-01-04"` fails the whole load
of a one-row file; nothing is produced and the store is returned
unchanged. -/
theorem load_failure_yields_nothing_witness :
    load_transactions
        [{ date := "2024-01-04", details := "Spotify",
           amount := AmountCell.str "9.99", debitCredit := "Debit" }]
        initCats = (none, initCats) :=
  load_failure_yields_nothing
    [{ date := "2024-01-04", details := "Spotify",
       amount := AmountCell.str "9.99", debitCredit := "Debit" }]
    initCats
    ⟨{ date := "2024-01-04", details := "Spotify",
       amount := AmountCell.str "9.99", debitCredit := "Debit" },
      by decide, by decide⟩

/-! ## Claim C9 -/

/-- C9: the `Amount` string `"1,234.56"` (thousands separator stripped
before conversion) and the numeric `Amount` `1234.56` normalize to the
same value, `1234.56`. -/
theorem amount_comma_string_eq_numeric :
    parseAmount (AmountCell.str "1,234.56")
        = parseAmount (AmountCell.num (1234.56 : ℚ)) ∧
      parseAmount (AmountCell.num (1234.56 : ℚ)) = some (1234.56 : ℚ) := by
  refine ⟨?_, rfl⟩
  have h1 : parseAmount (AmountCell.str "1,234.56")
      = some (((1234 : Nat) : ℚ) + ((56 : Nat) : ℚ) / (10 : ℚ) ^ (2 : Nat)) :=
    rfl
  rw [h1, show parseAmount (AmountCell.num (1234.56 : ℚ))
      = some (1234.56 : ℚ) from rfl]
  norm_num

/-! ## Claim C7 -/

/-- C7: the aggregator's per-category debit totals sum to the sum of
`Amount` over all `Debit`-direction records: no record is dropped or
double-counted by the filter-group-sum-sort pipeline. -/
theorem aggregate_conserves_debit_total (records : List Transaction) :
    ((aggregate records).map Prod.snd).sum
      = ((debitsOf records).map (·.amount)).sum := by
  unfold aggregate category_totals
  rw [sum_sortByAmountDesc, List.map_map]
  exact grouped_sum _ (debitsOf records) (List.nodup_dedup _)
    (fun x hx => List.mem_dedup.mpr (List.mem_map_of_mem _ hx))

/-! ## Claim C2 -/

/-- C2, counterexample: with `"Spotify"` stored under `"Music"`, adding
`"spotify"` is not a no-op returning `false`: the list is mutated to
`["Spotify", "spotify"]` and the call returns `true`, because the `in`
comparison at line 111 of `src/main.py` is case-sensitive. -/
theorem add_keyword_case_insensitive_refuted :
    (add_keyword_to_category "Music" "spotify" [("Music", ["Spotify"])]).1
        = [("Music", ["Spotify", "spotify"])] ∧
      (add_keyword_to_category "Music" "spotify" [("Music", ["Spotify"])]).2
        = true := by
  decide

/-- C2, amended: if the stripped keyword is already present in the
category's stored list under case-SENSITIVE (exact) comparison, then
`add_keyword_to_category` performs no mutation of the store and returns
`false`. -/
theorem add_keyword_exact_dup_noop (cats : CatStore) (c k : String)
    (ks : List String) (hlook : lookupCat cats c = some ks)
    (hmem : pyStrip k ∈ ks) :
    add_keyword_to_category c k cats = (cats, false) :=
  addKw_mem_noop hlook hmem

/-- C2, witness: adding `"spotify"` to a category that already stores
exactly `"spotify"` is a no-op returning `false`. -/
theorem add_keyword_exact_dup_noop_witness :
    add_keyword_to_category "Music" "spotify" [("Music", ["spotify"])]
      = ([("Music", ["spotify"])], false) :=
  add_keyword_exact_dup_noop [("Music", ["spotify"])] "Music" "spotify"
    ["spotify"] (by decide) (by decide)

/-! ## Claim C3 -/

/-- C3, counterexample: `add_keyword_to_category` has no guard on the
reserved category, so a single call on `"Uncategorized"` adds the
keyword `"coffee"` to it (the edit loop can make this call when a row is
re-assigned to `"Uncategorized"`). -/
theorem add_keyword_uncategorized_refuted :
    lookupCat (runOps [StoreOp.addKw "Uncategorized" "coffee"] initCats)
        "Uncategorized" = some ["coffee"] := by
  decide

/-- C3, amended: starting from the default store, `"Uncategorized"`
exists as a key in every reachable state, and as long as no
`add_keyword_to_category` call targets `"Uncategorized"` itself, its
keyword list stays empty; the code has no guard, so a call targeting
`"Uncategorized"` does add keywords to it. -/
theorem uncategorized_reserved_amended (ops : List StoreOp)
    (hops : ∀ op ∈ ops, addsToUncategorized op = false) :
    lookupCat (runOps ops initCats) "Uncategorized" = some [] :=
  runOps_uncategorized_empty ops initCats (by decide) hops

/-- C3, witness: creating a category and adding keywords to it leaves
`"Uncategorized"` present and empty. -/
theorem uncategorized_reserved_amended_witness :
    lookupCat
        (runOps [StoreOp.createCat "Food", StoreOp.addKw "Food" "coffee",
          StoreOp.addKw "Subscriptions" "spotify"] initCats)
        "Uncategorized" = some [] :=
  uncategorized_reserved_amended
    [StoreOp.createCat "Food", StoreOp.addKw "Food" "coffee",
      StoreOp.addKw "Subscriptions" "spotify"] (by decide)

/-! ## Claim C4 -/

/-- C4, counterexample: adding the keyword `" coffee "` twice to a fresh
`"Food"` category leaves a list containing the stripped string
`"coffee"`; the exact string `" coffee "` occurs zero times, not exactly
once, because the keyword is stripped before storage. -/
theorem add_keyword_twice_refuted :
    ((lookupCat
          (add_keyword_to_category "Food" " coffee "
              (add_keyword_to_category "Food" " coffee " [("Food", [])]).1).1
          "Food").getD []).count " coffee " = 0 ∧
      (lookupCat
          (add_keyword_to_category "Food" " coffee "
              (add_keyword_to_category "Food" " coffee " [("Food", [])]).1).1
          "Food") = some ["coffee"] := by
  decide

/-- C4, amended: for every store, category `c` and keyword `k` whose
stripped form is non-empty, if the stripped form occurs at most once in
`c`'s stored list, then after calling `add_keyword_to_category c k`
twice the stored list contains the stripped form exactly once (the
second call is a no-op). -/
theorem add_keyword_twice_idempotent (cats : CatStore) (c k : String)
    (he : pyStrip k ≠ "")
    (hcount : ((lookupCat cats c).getD []).count (pyStrip k) ≤ 1) :
    ((lookupCat
          (add_keyword_to_category c k
              (add_keyword_to_category c k cats).1).1 c).getD []).count
        (pyStrip k) = 1 := by
  by_cases hmem : pyStrip k ∈ (lookupCat cats c).getD []
  · cases hlook : lookupCat cats c with
    | none => simp [hlook] at hmem
    | some ks =>
      rw [hlook, Option.getD_some] at hmem
      have h1 := addKw_mem_noop hlook hmem
      rw [h1]
      rw [h1]
      rw [hlook, Option.getD_some]
      rw [hlook, Option.getD_some] at hcount
      have hpos : 0 < ks.count (pyStrip k) := List.count_pos_iff.mpr hmem
      omega
  · obtain ⟨h1, _⟩ := addKw_not_mem he hmem
    have h2 := @addKw_mem_noop _ c k _ h1 (by simp)
    rw [h2, h1, Option.getD_some, List.count_append]
    have hz : ((lookupCat cats c).getD []).count (pyStrip k) = 0 :=
      List.count_eq_zero.mpr hmem
    simp [hz]

/-- C4, witness: adding `"coffee"` twice to a fresh `"Food"` category
stores it exactly once. -/
theorem add_keyword_twice_idempotent_witness :
    ((lookupCat
          (add_keyword_to_category "Food" "coffee"
              (add_keyword_to_category "Food" "coffee" [("Food", [])]).1).1
          "Food").getD []).count (pyStrip "coffee") = 1 :=
  add_keyword_twice_idempotent [("Food", [])] "Food" "coffee"
    (by decide) (by decide)
